import Mathlib

/-!
Shallow embedding of the transcript retrieval core of the ask-lenny
repository: the segment parser (`src/mcp-lennys-quotes/src/data/loader.ts`),
the full-text retrieval engine (`indexer.ts`), the quote formatting layer
(`quote-extractor.ts`, `youtube.ts`) and the multi-phase search orchestrator
(`smart-search.ts`).

Modelling conventions:
- JavaScript numbers used as relevance scores are modelled as `ℚ`
  (the decimal literals `0.1` and `0.05` become `1/10` and `1/20`);
  array indices that may be negative are modelled as `Int`.
- The external lunr engine (`index.lunrIndex.search`) is modelled as an
  abstract function `String → LunrOutcome` carried by the index; a thrown
  engine exception is the `err` outcome.
- JavaScript `Map` objects are modelled as insertion-ordered association
  lists (`List (String × V)`): `set` of a present key updates in place,
  `set` of a fresh key appends, matching JS `Map` iteration order.
- `Math.random()`-driven draws are modelled by explicit draw parameters:
  `Math.floor(Math.random() * n)` is an arbitrary natural below `n`.
-/

set_option maxRecDepth 16384

namespace AskLenny

/-- The ASCII part of the JavaScript `\s` character class (used by
`trim` and the `[^a-z0-9\s]` replace in `normalizeGuestName`). -/
def jsIsSpace (c : Char) : Bool :=
  c = ' ' || c = '\t' || c = '\n' || c = '\r' || c = '\x0b' || c = '\x0c'

/-- JavaScript `s.toLowerCase()` (ASCII model). -/
def jsToLower (s : String) : String :=
  String.mk (s.toList.map Char.toLower)

/-- JavaScript `s.trim()` (ASCII whitespace). -/
def jsTrim (s : String) : String :=
  String.mk (((s.toList.dropWhile jsIsSpace).reverse.dropWhile jsIsSpace).reverse)

/-- indexer.ts `normalizeGuestName`:
`name.toLowerCase().trim().replace(/[^a-z0-9\s]/g, '')`. -/
def normalizeGuestName (name : String) : String :=
  String.mk ((jsTrim (jsToLower name)).toList.filter (fun c =>
    ( 'a' ≤ c && c ≤ 'z') || ( '0' ≤ c && c ≤ '9') || jsIsSpace c))

/-- Is `pat` a prefix of `s`? -/
def charsPrefixOf : List Char → List Char → Bool
  | [], _ => true
  | _ :: _, [] => false
  | c :: cs, d :: ds => c = d && charsPrefixOf cs ds

/-- Does `pat` occur contiguously inside `s`? -/
def charsInfixOf (pat : List Char) : List Char → Bool
  | [] => charsPrefixOf pat []
  | d :: ds => charsPrefixOf pat (d :: ds) || charsInfixOf pat ds

/-- JavaScript `s.includes(pat)`: `pat` occurs as a contiguous substring. -/
def jsIncludes (s pat : String) : Bool :=
  charsInfixOf pat.toList s.toList

/-- JavaScript `s.startsWith(pat)`. -/
def jsStartsWith (s pat : String) : Bool :=
  charsPrefixOf pat.toList s.toList

/-- JavaScript `s.endsWith(pat)`. -/
def jsEndsWith (s pat : String) : Bool :=
  charsPrefixOf pat.toList.reverse s.toList.reverse

/-- Drop the last `n` characters. -/
def jsDropRight (s : String) (n : Nat) : String :=
  String.mk (s.toList.take (s.toList.length - n))

/-- JavaScript `s.split(sep)` for a one-character separator: every
separator occurrence delimits a (possibly empty) field, and the empty
string splits to `[""]`. -/
def splitOnChar (sep : Char) (s : String) : List String :=
  (s.toList.foldr
    (fun c acc =>
      if c = sep then [] :: acc
      else
        match acc with
        | [] => [[c]]
        | g :: gs => (c :: g) :: gs)
    [[]]).map String.mk

/-- Code-unit order on strings (the comparator JavaScript
`Array.prototype.sort` applies to strings by default). -/
def charsLt : List Char → List Char → Bool
  | [], [] => false
  | [], _ :: _ => true
  | _ :: _, [] => false
  | c :: cs, d :: ds => if c = d then charsLt cs ds else decide (c < d)

/-- Stable insertion of `x` into a list ordered by the strict
comparator `lt`: `x` lands after every element it does not strictly
precede. -/
def insertOrdered {α : Type} (lt : α → α → Bool) (x : α) : List α → List α
  | [] => [x]
  | y :: ys => if lt x y then x :: y :: ys else y :: insertOrdered lt x ys

/-- JavaScript `Array.prototype.sort` with a consistent comparator:
stable, ordered by the induced strict order `lt`. -/
def jsSortBy {α : Type} (lt : α → α → Bool) (l : List α) : List α :=
  l.foldl (fun acc x => insertOrdered lt x acc) []

/-- indexer.ts escape-and-retry helper:
`query.replace(/[+\-:^~*]/g, '\\$&')` prefixes each special character
with a backslash. -/
def escapeLunrQuery (query : String) : String :=
  String.mk (query.toList.foldr (fun c acc =>
    if c = '+' || c = '-' || c = ':' || c = '^' || c = '~' || c = '*'
    then '\\' :: c :: acc else c :: acc) [])

/-- Numeric value of a (non-empty) decimal digit string. -/
def digitsToNat (digits : List Char) : Nat :=
  digits.foldl (fun acc c => acc * 10 + (c.toNat - '0'.toNat)) 0

/-- JavaScript `parseInt(s, 10)` on an optional string: skip leading
whitespace, optional sign, then the longest digit prefix; `NaN`
(modelled as `none`) if no digits, and `parseInt(undefined)` is `NaN`. -/
def jsParseInt : Option String → Option Int
  | none => none
  | some s =>
    let chars := s.toList.dropWhile jsIsSpace
    let signed : Int × List Char :=
      match chars with
      | '-' :: rest => (-1, rest)
      | '+' :: rest => (1, rest)
      | rest => (1, rest)
    let digits := signed.2.takeWhile Char.isDigit
    if digits.isEmpty then none
    else some (signed.1 * (digitsToNat digits : Int))

/-- JavaScript array subscript `l[i]` with a possibly negative or `NaN`
index: `undefined` (`none`) outside `[0, length)`. -/
def listGetInt {α : Type} (l : List α) : Option Int → Option α
  | none => none
  | some i => if i < 0 then none else l.get? i.toNat

/-- JavaScript `Array.prototype.findIndex`: index of the first element
satisfying the predicate, `-1` when there is none. -/
def jsFindIndex {α : Type} (l : List α) (p : α → Bool) : Int :=
  match l.findIdx? p with
  | some i => (i : Int)
  | none => -1

/-- JavaScript `s.slice(-n)`: the last `min n (length)` characters. -/
def jsSliceLast (s : String) (n : Nat) : String :=
  String.mk (s.toList.drop (s.toList.length - n))

/-! JS `Map` as an insertion-ordered association list. -/

/-- `Map.get`: value of the first (only) entry with the given key. -/
def mapGet {V : Type} : List (String × V) → String → Option V
  | [], _ => none
  | (k', v) :: rest, k => if k' = k then some v else mapGet rest k

/-- `Map.set`: update in place when the key is present (keeping its
position in iteration order), append otherwise. -/
def mapSet {V : Type} : List (String × V) → String → V → List (String × V)
  | [], k, v => [(k, v)]
  | (k', v') :: rest, k, v =>
    if k' = k then (k', v) :: rest else (k', v') :: mapSet rest k v

/-- `Map.delete`: remove the (single) entry with the given key. -/
def mapDelete {V : Type} : List (String × V) → String → List (String × V)
  | [], _ => []
  | (k', v') :: rest, k => if k' = k then rest else (k', v') :: mapDelete rest k

/-! Data model (`src/mcp-lennys-quotes/src/data/types.ts`). -/

/-- One transcript utterance (`TranscriptSegment`). -/
structure TranscriptSegment where
  speaker : String
  timestamp : String
  timestampSeconds : Nat
  text : String
deriving DecidableEq, Repr

/-- One episode (`Episode`). -/
structure Episode where
  guest : String
  title : String
  youtubeUrl : String
  videoId : String
  description : String
  durationSeconds : Nat
  duration : String
  viewCount : Nat
  channel : String
  segments : List TranscriptSegment
  rawText : String
  folderName : String
deriving DecidableEq, Repr

/-- One raw hit of the lunr engine: its `ref` string, its score, and
`Object.keys(result.matchData.metadata)` (the matched terms). -/
structure LunrHit where
  ref : String
  score : ℚ
  matchedTerms : List String
deriving DecidableEq, Repr

/-- Outcome of `index.lunrIndex.search(query)`: a result list, or a
thrown exception (for example a `QueryParseError`). -/
inductive LunrOutcome where
  | ok : List LunrHit → LunrOutcome
  | err : LunrOutcome
deriving DecidableEq, Repr

/-- The built search index (`SearchIndex`): the episode map and the
normalized-guest map in insertion order, plus the lunr engine modelled
as an abstract search function. -/
structure SearchIndex where
  episodes : List (String × Episode)
  guestToFolder : List (String × String)
  lunrSearch : String → LunrOutcome

/-- A scored retrieval hit mapped back to its segment (`SearchResult`). -/
structure SearchResult where
  segment : TranscriptSegment
  episode : Episode
  score : ℚ
  matchedTerms : List String
deriving DecidableEq, Repr

/-- Externally facing quote shape (`QuoteResult`). -/
structure QuoteResult where
  text : String
  speaker : String
  guest : String
  episodeTitle : String
  timestamp : String
  youtubeUrl : String
  contextBefore : Option String
  contextAfter : Option String
  relevanceScore : ℚ
deriving DecidableEq, Repr

/-! Segment parser (`loader.ts`). -/

/-- loader.ts `parseTimestamp`: split on `:`; three parts give
`h*3600 + m*60 + s`, two parts give `m*60 + s`, anything else is `0`.
The `Number` coercion is modelled for the digit strings produced by the
header regexes (its other inputs never reach this function). -/
def parseTimestamp (timestamp : String) : Nat :=
  match splitOnChar ':' timestamp with
  | [h, m, s] => digitsToNat h.toList * 3600 + digitsToNat m.toList * 60 + digitsToNat s.toList
  | [m, s] => digitsToNat m.toList * 60 + digitsToNat s.toList
  | _ => 0

/-- Does `s` match `\d{1,2}:\d{2}:\d{2}` exactly? -/
def isTimestampCore (s : String) : Bool :=
  match splitOnChar ':' s with
  | [h, m, sec] =>
    (h.length == 1 || h.length == 2) && h.toList.all Char.isDigit &&
      m.length == 2 && m.toList.all Char.isDigit &&
      sec.length == 2 && sec.toList.all Char.isDigit
  | _ => false

/-- Split a string at its last opening parenthesis: `pre ++ "(" ++ post`
with no parenthesis in `post`; `none` when there is no parenthesis. -/
def splitAtLastParen (s : String) : Option (String × String) :=
  let rev := s.toList.reverse
  let postRev := rev.takeWhile (fun c => c ≠ '(')
  if postRev.length = rev.length then none
  else some (String.mk ((rev.drop (postRev.length + 1)).reverse), String.mk postRev.reverse)

/-- Shared tail of both header regexes on an already-trimmed line: the
line must end with `(<ts>)` optionally followed by a single colon, where
`<ts>` matches `\d{1,2}:\d{2}:\d{2}`; returns the prefix before the
opening parenthesis and the timestamp. Because a timestamp contains no
parenthesis, the matching parenthesis position is unique. -/
def headerParts (line : String) : Option (String × String) :=
  let core := if jsEndsWith line ":" then jsDropRight line 1 else line
  if jsEndsWith core ")" then
    match splitAtLastParen (jsDropRight core 1) with
    | some (pre, ts) => if isTimestampCore ts then some (pre, ts) else none
    | none => none
  else none

/-- loader.ts `speakerTimestampRegex = /^(.+?)\s*\((\d{1,2}:\d{2}:\d{2})\):?\s*$/`
applied to a trimmed line: the lazy group needs at least one character
before the parenthesis. Returns the raw speaker capture (the caller
trims it, so the `\s*` boundary is immaterial) and the timestamp. -/
def matchSpeakerTimestamp (line : String) : Option (String × String) :=
  match headerParts line with
  | some (pre, ts) => if pre = "" then none else some (pre, ts)
  | none => none

/-- loader.ts `timestampOnlyRegex = /^\((\d{1,2}:\d{2}:\d{2})\):?\s*$/`
applied to a trimmed line. -/
def matchTimestampOnly (line : String) : Option String :=
  match headerParts line with
  | some (pre, ts) => if pre = "" then some ts else none
  | none => none

/-- Accumulator of the line scan in `parseTranscriptBody`. -/
structure ParseState where
  currentSpeaker : String
  currentTimestamp : String
  currentTimestampSeconds : Nat
  currentText : List String
  segments : List TranscriptSegment
deriving DecidableEq, Repr

/-- Flush the accumulated text as a segment
(`currentText.join(' ').trim()`). -/
def flushedSegment (st : ParseState) : TranscriptSegment :=
  { speaker := st.currentSpeaker
    timestamp := st.currentTimestamp
    timestampSeconds := st.currentTimestampSeconds
    text := jsTrim (String.intercalate " " st.currentText) }

/-- One iteration of the `for (const line of lines)` loop in
`parseTranscriptBody`. -/
def parseLine (st : ParseState) (line : String) : ParseState :=
  let trimmedLine := jsTrim line
  if trimmedLine = "" then st
  else
    match matchSpeakerTimestamp trimmedLine with
    | some (name, ts) =>
      let st1 := if st.currentText ≠ [] then
          { st with segments := st.segments ++ [flushedSegment st], currentText := [] }
        else st
      { st1 with
        currentSpeaker := jsTrim name
        currentTimestamp := ts
        currentTimestampSeconds := parseTimestamp ts }
    | none =>
      match matchTimestampOnly trimmedLine with
      | some ts =>
        let st1 := if st.currentText ≠ [] then
            { st with segments := st.segments ++ [flushedSegment st], currentText := [] }
          else st
        { st1 with
          currentTimestamp := ts
          currentTimestampSeconds := parseTimestamp ts }
      | none =>
        if jsStartsWith trimmedLine "#" then st
        else { st with currentText := st.currentText ++ [trimmedLine] }

/-- loader.ts `parseTranscriptBody`: scan the lines, then flush any
remaining accumulated text as the final segment. -/
def parseTranscriptBody (body : String) : List TranscriptSegment :=
  let st := (splitOnChar '\n' body).foldl parseLine
    { currentSpeaker := "Unknown"
      currentTimestamp := "00:00:00"
      currentTimestampSeconds := 0
      currentText := []
      segments := [] }
  if st.currentText ≠ [] then st.segments ++ [flushedSegment st] else st.segments

/-! Retrieval engine (`indexer.ts`). -/

/-- Options object of `searchIndex` (all fields optional, defaults
`limit = 10`, `minScore = 0.1` applied inside). -/
structure SearchOptions where
  guest : Option String := none
  limit : Option Nat := none
  minScore : Option ℚ := none

/-- The query-building step of `searchIndex`: when a guest filter is
supplied and its normalized name resolves in `guestToFolder`, append the
field-scoped token `guest:<name>` to the query. -/
def buildSearchQuery (index : SearchIndex) (query : String) (guest : Option String) : String :=
  match guest with
  | none => query
  | some g =>
    match mapGet index.guestToFolder (normalizeGuestName g) with
    | some _ => query ++ " guest:" ++ g
    | none => query

/-- The per-hit body of the result loop of `searchIndex` (after the
score gate): parse the `folderName:segmentIndex` ref, look the episode
up, apply the hard guest post-filter, and look the segment up. -/
def resolveHit (index : SearchIndex) (guest : Option String) (hit : LunrHit) : Option SearchResult :=
  let parts := splitOnChar ':' hit.ref
  let folderName := parts.headD ""
  let segmentIndex := jsParseInt (parts.get? 1)
  match mapGet index.episodes folderName with
  | none => none
  | some episode =>
    let guestOk :=
      match guest with
      | none => true
      | some g =>
        jsIncludes (normalizeGuestName episode.guest) (normalizeGuestName g) ||
          jsIncludes (normalizeGuestName g) (normalizeGuestName episode.guest)
    if !guestOk then none
    else
      match listGetInt episode.segments segmentIndex with
      | none => none
      | some segment =>
        some { segment := segment, episode := episode,
               score := hit.score, matchedTerms := hit.matchedTerms }

/-- The result loop of `searchIndex`: skip hits below `minScore`, skip
hits that do not resolve, and break once `limit` results are collected
(the length test runs after each push). -/
def collectResults (index : SearchIndex) (guest : Option String) (minScore : ℚ)
    (limit : Nat) : List LunrHit → List SearchResult → List SearchResult
  | [], acc => acc
  | hit :: rest, acc =>
    if hit.score < minScore then collectResults index guest minScore limit rest acc
    else
      match resolveHit index guest hit with
      | none => collectResults index guest minScore limit rest acc
      | some r =>
        if limit ≤ (acc ++ [r]).length then acc ++ [r]
        else collectResults index guest minScore limit rest (acc ++ [r])

/-- indexer.ts `searchIndex`: build the (possibly guest-augmented)
query, run the engine inside try/catch — retrying once with the
special characters of the original query escaped, and falling back to
the empty list when the retry also throws — then run the result loop. -/
def searchIndex (index : SearchIndex) (query : String) (options : SearchOptions) : List SearchResult :=
  let guest := options.guest
  let limit := options.limit.getD 10
  let minScore := options.minScore.getD (mkRat 1 10)
  let searchQuery := buildSearchQuery index query guest
  let outcome : Option (List LunrHit) :=
    match index.lunrSearch searchQuery with
    | .ok results => some results
    | .err =>
      match index.lunrSearch (escapeLunrQuery query) with
      | .ok results => some results
      | .err => none
  match outcome with
  | none => []
  | some results => collectResults index guest minScore limit results []

/-- indexer.ts `getRandomSegment`. Randomness is modelled by explicit
draw parameters: `epDraw` stands for the `Math.floor(Math.random() *
episodes.length)` draw (a natural below the length on genuine outcomes)
and `segDraw` for the inner draw over the filtered segment list (or, in
the topic branch, over the result list). -/
def getRandomSegment (index : SearchIndex) (topic : Option String)
    (epDraw segDraw : Nat) : Option SearchResult :=
  match topic with
  | some t =>
    let results := searchIndex index t { limit := some 50, minScore := some (mkRat 1 20) }
    if results.length = 0 then none
    else results.get? segDraw
  | none =>
    let episodes := index.episodes.map Prod.snd
    if episodes.length = 0 then none
    else
      match episodes.get? epDraw with
      | none => none
      | some episode =>
        let goodSegments := episode.segments.filter (fun s => 100 ≤ s.text.length)
        if goodSegments.length = 0 then none
        else
          match goodSegments.get? segDraw with
          | none => none
          | some segment =>
            some { segment := segment, episode := episode, score := 1, matchedTerms := [] }

/-! Quote formatting (`youtube.ts`, `quote-extractor.ts`). -/

/-- youtube.ts `buildYouTubeUrl` (the `Math.floor` is the identity on
the `Nat`-valued `timestampSeconds`). -/
def buildYouTubeUrl (videoId : String) (timestampSeconds : Nat) : String :=
  if videoId = "" then ""
  else if 0 < timestampSeconds then
    "https://www.youtube.com/watch?v=" ++ videoId ++ "&t=" ++ toString timestampSeconds
  else
    "https://www.youtube.com/watch?v=" ++ videoId

/-- Placeholder for an unreachable JS `undefined` subscript (used only
behind bounds checks that make it unreachable). -/
def dummySegment : TranscriptSegment :=
  { speaker := "", timestamp := "", timestampSeconds := 0, text := "" }

/-- quote-extractor.ts `getContext`: re-find the index by timestamp when
it is out of range (against `segments[segmentIndex]?.timestamp`, which
is `undefined` out of range, so the re-find yields `-1`), then attach
the last 200 characters of the previous segment and the first 200 of
the next, omitting a side with no neighbour. -/
def getContext (episode : Episode) (segmentIndex : Int) : Option String × Option String :=
  let segments := episode.segments
  let target := (listGetInt segments (some segmentIndex)).map (fun s => s.timestamp)
  let idx : Int :=
    if segmentIndex < 0 || (segments.length : Int) ≤ segmentIndex then
      jsFindIndex segments (fun s => target == some s.timestamp)
    else segmentIndex
  if idx < 0 then (none, none)
  else
    let i := idx.toNat
    let contextBefore :=
      if 0 < i then some (jsSliceLast (segments.getD (i - 1) dummySegment).text 200)
      else none
    let contextAfter :=
      if (i : Int) < (segments.length : Int) - 1 then
        some ((segments.getD (i + 1) dummySegment).text.take 200)
      else none
    (contextBefore, contextAfter)

/-- quote-extractor.ts `searchResultToQuote`: when no index is supplied
find the segment by timestamp and text; attach context when the index
is non-negative. -/
def searchResultToQuote (result : SearchResult) (segmentIndex : Option Int) : QuoteResult :=
  let idx : Int :=
    match segmentIndex with
    | some i => i
    | none =>
      jsFindIndex result.episode.segments (fun s =>
        s.timestamp == result.segment.timestamp && s.text == result.segment.text)
  let context := if 0 ≤ idx then getContext result.episode idx else (none, none)
  { text := result.segment.text
    speaker := result.segment.speaker
    guest := result.episode.guest
    episodeTitle := result.episode.title
    timestamp := result.segment.timestamp
    youtubeUrl := buildYouTubeUrl result.episode.videoId result.segment.timestampSeconds
    contextBefore := context.1
    contextAfter := context.2
    relevanceScore := result.score }

/-- quote-extractor.ts `formatQuotesForDisplay`. -/
def formatQuotesForDisplay (quotes : List QuoteResult) : String :=
  if quotes.length = 0 then "No matching quotes found."
  else
    String.intercalate "\n" ((quotes.enum.map (fun iq =>
      [ "**" ++ toString (iq.1 + 1) ++ ". " ++ iq.2.speaker ++ "** (" ++ iq.2.guest
          ++ " - \"" ++ iq.2.episodeTitle ++ "\")"
      , "> " ++ iq.2.text.take 500 ++ (if 500 < iq.2.text.length then "..." else "")
      , "[Watch at " ++ iq.2.timestamp ++ "](" ++ iq.2.youtubeUrl ++ ")"
      , "" ])).flatten)

/-! Multi-phase search orchestrator (`smart-search.ts`). -/

/-- `SearchPhase`. -/
inductive SearchPhase where
  | expand
  | filter
  | complete
deriving DecidableEq, Repr

/-- `CandidateQuote`. -/
structure CandidateQuote where
  index : Nat
  speaker : String
  guest : String
  episodeTitle : String
  text : String
  timestamp : String
deriving DecidableEq, Repr

/-- The `continueWith` field of a smart-search response. -/
structure ContinueWith where
  tool : String
  setParam : String
  description : String
deriving DecidableEq, Repr

/-- `SmartSearchResponse` (optional fields are `Option`s). -/
structure SmartSearchResponse where
  phase : SearchPhase
  instruction : Option String := none
  originalQuery : Option String := none
  continueWith : Option ContinueWith := none
  candidates : Option (List CandidateQuote) := none
  candidateCount : Option Nat := none
  results : Option String := none
  resultCount : Option Nat := none
deriving DecidableEq, Repr

/-- `SmartSearchParams`: presence or absence of `expandedTerms` and
`selectedIndices` selects the phase. -/
structure SmartSearchParams where
  query : String
  guest : Option String := none
  limit : Option Nat := none
  minScore : Option ℚ := none
  expandedTerms : Option (List String) := none
  selectedIndices : Option (List Int) := none

/-- The module-level `sessionCandidates` map, threaded explicitly. -/
abbrev SessionCache : Type := List (String × List SearchResult)

/-- smart-search.ts `getSessionKey`:
`query + '::' + expandedTerms.sort().join(',')` (JS default sort =
lexicographic string order, stable). -/
def getSessionKey (query : String) (expandedTerms : List String) : String :=
  query ++ "::" ++ String.intercalate "," (jsSortBy (fun a b => charsLt a.toList b.toList) expandedTerms)

/-- smart-search.ts `handleExpandPhase`. -/
def handleExpandPhase (query : String) : SmartSearchResponse :=
  { phase := .expand
    originalQuery := some query
    instruction := some ("Generate 5-7 alternative search terms or phrases related to \""
      ++ query ++ "\".\nThink about:\n- Synonyms and related concepts\n- How people might describe this topic differently\n- Related problems or solutions\n- Industry jargon vs. plain language\n\nReturn ONLY a JSON array of strings, like:\n[\"term 1\", \"term 2\", \"term 3\", \"term 4\", \"term 5\"]\n\nDo not include any other text or explanation.")
    continueWith := some
      { tool := "search_quotes"
        setParam := "expanded_terms"
        description := "Call search_quotes again with the same query and add expanded_terms parameter with your JSON array" } }

/-- Merge key of a phase-2 hit:
`result.episode.folderName + ':' + result.segment.timestamp`. -/
def resultKey (r : SearchResult) : String :=
  r.episode.folderName ++ ":" ++ r.segment.timestamp

/-- The phase-2 merge loop over all per-term hits in search order: a
challenger replaces the entry under its key only when its score is
strictly greater. -/
def mergeResults : List SearchResult → List (String × SearchResult) → List (String × SearchResult)
  | [], m => m
  | r :: rest, m =>
    let m1 :=
      match mapGet m (resultKey r) with
      | none => mapSet m (resultKey r) r
      | some existing => if existing.score < r.score then mapSet m (resultKey r) r else m
    mergeResults rest m1

/-- All phase-2 hits: the original query followed by every expanded
term, each searched with `limit = 15` and the phase-2 `minScore`,
results concatenated in term order. -/
def phase2AllHits (index : SearchIndex) (query : String) (expandedTerms : List String)
    (guest : Option String) (minScore : ℚ) : List SearchResult :=
  ((query :: expandedTerms).map (fun term =>
    searchIndex index term { guest := guest, limit := some 15, minScore := some minScore })).flatten

/-- Phase-2 candidate list: merged hits in key-insertion order, stably
sorted by descending score, capped at 30. -/
def phase2Candidates (index : SearchIndex) (query : String) (expandedTerms : List String)
    (guest : Option String) (minScore : ℚ) : List SearchResult :=
  (jsSortBy (fun a b => decide (b.score < a.score))
    ((mergeResults (phase2AllHits index query expandedTerms guest minScore) []).map
      Prod.snd)).take 30

/-- The phase-2 session-cache update: `set` the new entry, then delete
the oldest entries until at most 10 remain. -/
def cacheStore (cache : SessionCache) (key : String) (value : List SearchResult) : SessionCache :=
  let c := mapSet cache key value
  if 10 < c.length then c.drop (c.length - 10) else c

/-- smart-search.ts `handleFilterPhase`, with the session cache
threaded: run the multi-term search, merge, sort, cap at 30; on no
candidates answer `complete` with a no-results message and leave the
cache alone; otherwise store the candidates under the session key
(evicting beyond 10 sessions) and answer `filter`. -/
def handleFilterPhase (index : SearchIndex) (query : String) (expandedTerms : List String)
    (guest : Option String) (minScore : Option ℚ) (cache : SessionCache) :
    SmartSearchResponse × SessionCache :=
  let ms := minScore.getD (mkRat 1 20)
  let allResults := phase2Candidates index query expandedTerms guest ms
  if allResults.length = 0 then
    ({ phase := .complete
       results := some ("No quotes found for \"" ++ query
         ++ "\" even with expanded search terms. Try a different topic.")
       resultCount := some 0 }, cache)
  else
    let sessionKey := getSessionKey query expandedTerms
    let cache1 := cacheStore cache sessionKey allResults
    let candidates : List CandidateQuote := allResults.enum.map (fun ir =>
      { index := ir.1
        speaker := ir.2.segment.speaker
        guest := ir.2.episode.guest
        episodeTitle := ir.2.episode.title
        text := ir.2.segment.text.take 400
          ++ (if 400 < ir.2.segment.text.length then "..." else "")
        timestamp := ir.2.segment.timestamp })
    ({ phase := .filter
       originalQuery := some query
       candidates := some candidates
       candidateCount := some candidates.length
       instruction := some ("Review these " ++ toString candidates.length
         ++ " candidate quotes and select the ones that truly and directly discuss \""
         ++ query ++ "\".\n\nFor each candidate, consider:\n- Does it actually talk about "
         ++ query ++ ", or just mention related words?\n- Is the insight valuable and substantive?\n- Would someone searching for \""
         ++ query ++ "\" find this helpful?\n\nReturn ONLY a JSON array of the index numbers for the most relevant quotes (up to 5-7 best matches), ranked by relevance:\n[2, 7, 0, 15, 11]\n\nIf none of the candidates are truly relevant, return an empty array: []\n\nDo not include any other text or explanation.")
       continueWith := some
         { tool := "search_quotes"
           setParam := "selected_indices"
           description := "Call search_quotes again with the same query, expanded_terms, and add selected_indices parameter with your JSON array" } },
     cache1)

/-- Placeholder for an unreachable JS `undefined` candidate subscript
(the bounds filter in `handleCompletePhase` makes it unreachable). -/
def dummySearchResult : SearchResult :=
  { segment := dummySegment
    episode :=
      { guest := "", title := "", youtubeUrl := "", videoId := "", description := ""
        durationSeconds := 0, duration := "", viewCount := 0, channel := ""
        segments := [], rawText := "", folderName := "" }
    score := 0
    matchedTerms := [] }

/-- The phase-3 selection pipeline:
`selectedIndices.filter(inRange).slice(0, limit).map(idx => candidates[idx])`. -/
def selectedCandidates (candidates : List SearchResult) (selectedIndices : List Int)
    (limit : Nat) : List SearchResult :=
  ((selectedIndices.filter (fun i =>
      decide (0 ≤ i) && decide (i < (candidates.length : Int)))).take limit).map
    (fun i => (listGetInt candidates (some i)).getD dummySearchResult)

/-- smart-search.ts `handleCompletePhase`, with the session cache
threaded: report session-expired when the key is absent; bounds-filter
and cap the selected indices; on an empty valid selection answer with a
no-results message (leaving the cache untouched); otherwise build and
format the quotes, delete the session entry, and answer with the count. -/
def handleCompletePhase (index : SearchIndex) (query : String) (expandedTerms : List String)
    (selectedIndices : List Int) (limit : Nat) (cache : SessionCache) :
    SmartSearchResponse × SessionCache :=
  let sessionKey := getSessionKey query expandedTerms
  match mapGet cache sessionKey with
  | none =>
    ({ phase := .complete
       results := some ("Session expired. Please start a new search for \"" ++ query ++ "\".")
       resultCount := some 0 }, cache)
  | some candidates =>
    let selectedResults := selectedCandidates candidates selectedIndices limit
    if selectedResults.length = 0 then
      ({ phase := .complete
         results := some ("No relevant quotes found for \"" ++ query
           ++ "\" after filtering. The search returned candidates but none matched the topic closely enough.")
         resultCount := some 0 }, cache)
    else
      let quotes : List QuoteResult := selectedResults.map (fun result =>
        let segmentIndex := jsFindIndex result.episode.segments (fun s =>
          s.timestamp == result.segment.timestamp && s.text == result.segment.text)
        searchResultToQuote result (some segmentIndex))
      let formatted := formatQuotesForDisplay quotes
      let cache1 := mapDelete cache sessionKey
      ({ phase := .complete
         results := some ("Found " ++ toString quotes.length ++ " relevant quote(s) for \""
           ++ query ++ "\":\n\n" ++ formatted)
         resultCount := some quotes.length }, cache1)

/-- smart-search.ts `smartSearch`: phase dispatch on which optional
parameters are present (`expandedTerms && selectedIndices` selects
phase 3, `expandedTerms` alone phase 2, otherwise phase 1). -/
def smartSearch (index : SearchIndex) (params : SmartSearchParams) (cache : SessionCache) :
    SmartSearchResponse × SessionCache :=
  let limit := params.limit.getD 5
  let minScore := params.minScore.getD (mkRat 1 20)
  match params.expandedTerms, params.selectedIndices with
  | some terms, some sel => handleCompletePhase index params.query terms sel limit cache
  | some terms, none => handleFilterPhase index params.query terms params.guest (some minScore) cache
  | none, _ => (handleExpandPhase params.query, cache)

/-! Association-list map lemmas. -/

theorem mapGet_mapSet_self {V : Type} (m : List (String × V)) (k : String) (v : V) :
    mapGet (mapSet m k v) k = some v := by
  induction m with
  | nil => simp [mapSet, mapGet]
  | cons p rest ih =>
    obtain ⟨k0, v0⟩ := p
    by_cases h : k0 = k
    · subst h
      simp [mapSet, mapGet]
    · simp [mapSet, mapGet, h, ih]

theorem mapGet_mapSet_ne {V : Type} (m : List (String × V)) (k k' : String) (v : V)
    (h : k' ≠ k) : mapGet (mapSet m k v) k' = mapGet m k' := by
  induction m with
  | nil => simp [mapSet, mapGet, Ne.symm h]
  | cons p rest ih =>
    obtain ⟨k0, v0⟩ := p
    by_cases hp : k0 = k
    · subst hp
      simp [mapSet, mapGet, Ne.symm h]
    · simp [mapSet, mapGet, hp, ih]

theorem mapSet_eq_append {V : Type} (m : List (String × V)) (k : String) (v : V)
    (h : ∀ p ∈ m, p.1 ≠ k) : mapSet m k v = m ++ [(k, v)] := by
  induction m with
  | nil => simp [mapSet]
  | cons p rest ih =>
    obtain ⟨k0, v0⟩ := p
    have hp : k0 ≠ k := h (k0, v0) (by simp)
    simp [mapSet, hp, ih (fun q hq => h q (by simp [hq]))]

theorem mapGet_eq_none {V : Type} (m : List (String × V)) (k : String)
    (h : ∀ p ∈ m, p.1 ≠ k) : mapGet m k = none := by
  induction m with
  | nil => rfl
  | cons p rest ih =>
    obtain ⟨k0, v0⟩ := p
    have hp : k0 ≠ k := h (k0, v0) (by simp)
    simp [mapGet, hp, ih (fun q hq => h q (by simp [hq]))]

theorem mapGet_append {V : Type} (m1 m2 : List (String × V)) (k : String) :
    mapGet (m1 ++ m2) k =
      match mapGet m1 k with
      | some v => some v
      | none => mapGet m2 k := by
  induction m1 with
  | nil => simp [mapGet]
  | cons p rest ih =>
    obtain ⟨k0, v0⟩ := p
    by_cases hp : k0 = k <;> simp [mapGet, hp, ih]

theorem mapGet_of_mem {V : Type} (m : List (String × V)) (k : String) (v : V)
    (hmem : (k, v) ∈ m) (hnd : (m.map Prod.fst).Nodup) : mapGet m k = some v := by
  induction m with
  | nil => cases hmem
  | cons p rest ih =>
    obtain ⟨k0, v0⟩ := p
    rw [List.map_cons] at hnd
    have hnd' := List.nodup_cons.mp hnd
    rcases List.mem_cons.mp hmem with h | h
    · injection h with h1 h2
      subst h1
      subst h2
      simp [mapGet]
    · have hp : k0 ≠ k := by
        intro hk
        subst hk
        exact hnd'.1 (List.mem_map.mpr ⟨(k0, v), h, rfl⟩)
      simp [mapGet, hp, ih h hnd'.2]

theorem mapGet_mapDelete_self {V : Type} (m : List (String × V)) (k : String)
    (hnd : (m.map Prod.fst).Nodup) : mapGet (mapDelete m k) k = none := by
  induction m with
  | nil => rfl
  | cons p rest ih =>
    obtain ⟨k0, v0⟩ := p
    rw [List.map_cons] at hnd
    have hnd' := List.nodup_cons.mp hnd
    by_cases hp : k0 = k
    · subst hp
      simp only [mapDelete, if_pos rfl]
      apply mapGet_eq_none
      intro q hq hqk
      exact hnd'.1 (by rw [← hqk]; exact List.mem_map.mpr ⟨q, hq, rfl⟩)
    · simp [mapDelete, mapGet, hp, ih hnd'.2]

theorem mapGet_mapDelete_ne {V : Type} (m : List (String × V)) (k k' : String)
    (h : k' ≠ k) : mapGet (mapDelete m k) k' = mapGet m k' := by
  induction m with
  | nil => rfl
  | cons p rest ih =>
    obtain ⟨k0, v0⟩ := p
    by_cases hp : k0 = k
    · subst hp
      simp [mapDelete, mapGet, Ne.symm h]
    · simp [mapDelete, mapGet, hp, ih]

/-! Result-loop lemmas for the retrieval engine. -/

theorem resolveHit_score (index : SearchIndex) (guest : Option String) (hit : LunrHit)
    (r : SearchResult) (h : resolveHit index guest hit = some r) : r.score = hit.score := by
  simp only [resolveHit] at h
  split at h
  · exact Option.noConfusion h
  · split at h
    · exact Option.noConfusion h
    · split at h
      · exact Option.noConfusion h
      · cases h
        rfl

theorem resolveHit_guest (index : SearchIndex) (g : String) (hit : LunrHit)
    (r : SearchResult) (h : resolveHit index (some g) hit = some r) :
    (jsIncludes (normalizeGuestName r.episode.guest) (normalizeGuestName g) ||
      jsIncludes (normalizeGuestName g) (normalizeGuestName r.episode.guest)) = true := by
  simp only [resolveHit] at h
  split at h
  · exact Option.noConfusion h
  next episode hep =>
    split at h
    next hguest => exact Option.noConfusion h
    next hguest =>
      split at h
      · exact Option.noConfusion h
      · cases h
        revert hguest
        cases jsIncludes (normalizeGuestName episode.guest) (normalizeGuestName g) <;>
          cases jsIncludes (normalizeGuestName g) (normalizeGuestName episode.guest) <;> simp

theorem mem_collectResults (index : SearchIndex) (guest : Option String) (minScore : ℚ)
    (limit : Nat) (P : SearchResult → Prop)
    (hres : ∀ hit r, ¬ hit.score < minScore → resolveHit index guest hit = some r → P r) :
    ∀ (hits : List LunrHit) (acc : List SearchResult), (∀ r ∈ acc, P r) →
      ∀ r ∈ collectResults index guest minScore limit hits acc, P r := by
  intro hits
  induction hits with
  | nil =>
    intro acc hacc r hr
    exact hacc r (by simpa [collectResults] using hr)
  | cons hit rest ih =>
    intro acc hacc r hr
    rw [collectResults] at hr
    split at hr
    · exact ih acc hacc r hr
    next hscore =>
      split at hr
      · exact ih acc hacc r hr
      next r' hres' =>
        have hacc1 : ∀ x ∈ acc ++ [r'], P x := by
          intro x hx
          rcases List.mem_append.mp hx with hx | hx
          · exact hacc x hx
          · simp at hx
            exact hx ▸ hres hit r' hscore hres'
        split at hr
        · exact hacc1 r hr
        · exact ih (acc ++ [r']) hacc1 r hr

theorem mem_searchIndex (index : SearchIndex) (query : String) (options : SearchOptions)
    (P : SearchResult → Prop)
    (hres : ∀ hit r, ¬ hit.score < options.minScore.getD (mkRat 1 10) →
      resolveHit index options.guest hit = some r → P r) :
    ∀ r ∈ searchIndex index query options, P r := by
  intro r hr
  simp only [searchIndex] at hr
  split at hr
  · cases hr
  · exact mem_collectResults index options.guest (options.minScore.getD (mkRat 1 10))
      (options.limit.getD 10) P hres _ [] (by simp) r hr

/-! Concrete corpus used by the witnesses. -/

/-- Witness segment: the scenario segment of the spec. -/
def wSegment : TranscriptSegment :=
  { speaker := "Brian", timestamp := "00:00:05", timestampSeconds := 5
    text := "I love design thinking." }

/-- Second witness segment. -/
def wSegment2 : TranscriptSegment :=
  { speaker := "Lenny", timestamp := "00:00:12", timestampSeconds := 12
    text := "Tell me more." }

/-- Witness episode. -/
def wEpisode : Episode :=
  { guest := "Brian Chesky", title := "Founder Mode", youtubeUrl := "", videoId := "abc"
    description := "", durationSeconds := 0, duration := "", viewCount := 7
    channel := "Lennys Podcast", segments := [wSegment, wSegment2], rawText := ""
    folderName := "brian-chesky" }

/-- Witness engine: one hit for the query `design`, a higher-scoring
hit on the same segment for `craft`, nothing otherwise. -/
def wEngine : String → LunrOutcome := fun s =>
  if s = "design" then .ok [{ ref := "brian-chesky:0", score := 2, matchedTerms := ["design"] }]
  else if s = "craft" then .ok [{ ref := "brian-chesky:0", score := 3, matchedTerms := ["craft"] }]
  else .ok []

/-- Witness index over the one-episode corpus. -/
def wIndex : SearchIndex :=
  { episodes := [("brian-chesky", wEpisode)]
    guestToFolder := [("brian chesky", "brian-chesky")]
    lunrSearch := wEngine }

/-- An index whose engine throws on every query. -/
def wErrIndex : SearchIndex :=
  { episodes := [("brian-chesky", wEpisode)]
    guestToFolder := [("brian chesky", "brian-chesky")]
    lunrSearch := fun _ => .err }

/-- An index whose engine throws on the raw query but succeeds once the
special characters are escaped. -/
def wRetryIndex : SearchIndex :=
  { episodes := [("brian-chesky", wEpisode)]
    guestToFolder := [("brian chesky", "brian-chesky")]
    lunrSearch := fun s =>
      if s = escapeLunrQuery "design:thinking" then
        .ok [{ ref := "brian-chesky:0", score := 2, matchedTerms := ["design"] }]
      else .err }

/-- Claim C1: `searchIndex` is total (its type returns a plain result
list for every index, query and options value, never an exception), and
when the engine throws on the built query the search is retried exactly
once on the original query with the special characters escaped
(`escapeLunrQuery`); when that retry also throws, the result is the
empty list. -/
theorem searchIndex_retry_and_fallback (index : SearchIndex) (query : String)
    (options : SearchOptions)
    (h1 : index.lunrSearch (buildSearchQuery index query options.guest) = .err) :
    (index.lunrSearch (escapeLunrQuery query) = .err →
      searchIndex index query options = []) ∧
    (∀ hits, index.lunrSearch (escapeLunrQuery query) = .ok hits →
      searchIndex index query options =
        collectResults index options.guest (options.minScore.getD (mkRat 1 10))
          (options.limit.getD 10) hits []) := by
  constructor
  · intro h2
    simp only [searchIndex, h1, h2]
  · intro hits h2
    simp only [searchIndex, h1, h2]

/-- Witness for C1: on an engine that always throws, both hypotheses
hold at a concrete query and the result is the empty list; on an engine
that recovers on the escaped retry, the retried hits are processed. -/
theorem searchIndex_retry_and_fallback_witness :
    (wErrIndex.lunrSearch (buildSearchQuery wErrIndex "design:thinking" none) = .err ∧
      searchIndex wErrIndex "design:thinking" {} = []) ∧
    (wRetryIndex.lunrSearch (buildSearchQuery wRetryIndex "design:thinking" none) = .err ∧
      (searchIndex wRetryIndex "design:thinking" {}).length = 1) := by
  refine ⟨⟨rfl, ?_⟩, ⟨?_, ?_⟩⟩
  · exact (searchIndex_retry_and_fallback wErrIndex "design:thinking" {} rfl).1 rfl
  · decide
  · have h := (searchIndex_retry_and_fallback wRetryIndex "design:thinking" {} (by decide)).2
      [{ ref := "brian-chesky:0", score := 2, matchedTerms := ["design"] }] (by decide)
    rw [h]
    decide

/-- Claim C2: with a guest filter `G` supplied, every returned result's
episode guest normalizes (lower-case, trim, strip characters other than
`a-z`, `0-9` and whitespace) to a string that contains or is contained
in the normalization of `G`, regardless of whether the `guest:<name>`
query augmentation was applied. -/
theorem searchIndex_guest_filter_invariant (index : SearchIndex) (query : String)
    (options : SearchOptions) (g : String) (hg : options.guest = some g) :
    ∀ r ∈ searchIndex index query options,
      jsIncludes (normalizeGuestName r.episode.guest) (normalizeGuestName g) = true ∨
      jsIncludes (normalizeGuestName g) (normalizeGuestName r.episode.guest) = true := by
  apply mem_searchIndex
  intro hit r _ hres
  rw [hg] at hres
  exact Bool.or_eq_true_iff.mp (resolveHit_guest index g hit r hres)

/-- Witness for C2: the guest filter `brian` on the witness corpus
returns one result and it satisfies the overlap invariant. -/
theorem searchIndex_guest_filter_invariant_witness :
    ({ guest := some "brian" } : SearchOptions).guest = some "brian" ∧
    (searchIndex wIndex "design" { guest := some "brian" }).length = 1 ∧
    ∀ r ∈ searchIndex wIndex "design" { guest := some "brian" },
      jsIncludes (normalizeGuestName r.episode.guest) (normalizeGuestName "brian") = true ∨
      jsIncludes (normalizeGuestName "brian") (normalizeGuestName r.episode.guest) = true := by
  refine ⟨rfl, by decide, ?_⟩
  exact searchIndex_guest_filter_invariant wIndex "design" { guest := some "brian" } "brian" rfl

/-- Claim C3: with `minScore = m` supplied, every returned result has
score at least `m`. -/
theorem searchIndex_min_score_invariant (index : SearchIndex) (query : String)
    (options : SearchOptions) (m : ℚ) (hm : options.minScore = some m) :
    ∀ r ∈ searchIndex index query options, m ≤ r.score := by
  apply mem_searchIndex
  intro hit r hscore hres
  rw [resolveHit_score index options.guest hit r hres]
  rw [hm] at hscore
  simpa using not_lt.mp hscore

/-- Witness for C3: with threshold 1 the witness corpus still returns
one result, and its score is at least 1. -/
theorem searchIndex_min_score_invariant_witness :
    ({ minScore := some 1 } : SearchOptions).minScore = some 1 ∧
    (searchIndex wIndex "design" { minScore := some 1 }).length = 1 ∧
    ∀ r ∈ searchIndex wIndex "design" { minScore := some 1 }, 1 ≤ r.score := by
  refine ⟨rfl, by decide, ?_⟩
  exact searchIndex_min_score_invariant wIndex "design" { minScore := some 1 } 1 rfl

/-- Claim C10: when `selectedIndices` is present but `expandedTerms` is
absent, `smartSearch` answers exactly as a call carrying only the query:
the phase dispatch tests `expandedTerms` first, so the supplied
`selectedIndices` is silently ignored and the phase-1 expand response is
produced (with the cache untouched). -/
theorem smartSearch_selected_without_expanded_is_expand (index : SearchIndex)
    (q : String) (guest : Option String) (limit : Option Nat) (minScore : Option ℚ)
    (sel : List Int) (cache : SessionCache) :
    smartSearch index
      { query := q, guest := guest, limit := limit, minScore := minScore
        expandedTerms := none, selectedIndices := some sel } cache =
      smartSearch index { query := q } cache ∧
    (smartSearch index
      { query := q, guest := guest, limit := limit, minScore := minScore
        expandedTerms := none, selectedIndices := some sel } cache).1 =
      handleExpandPhase q := by
  exact ⟨rfl, rfl⟩

/-- Witness segment long enough for the random-wisdom filter. -/
def wLongSegment : TranscriptSegment :=
  { speaker := "Claire", timestamp := "00:10:00", timestampSeconds := 600
    text := "The best advice I ever got was to spend much more time talking to customers than polishing internal documents, because customers tell you what actually matters." }

/-- Episode with no 100+-character segment. -/
def wShortEpisode : Episode :=
  { guest := "Shorty", title := "Short Takes", youtubeUrl := "", videoId := ""
    description := "", durationSeconds := 0, duration := "", viewCount := 1
    channel := "Lennys Podcast", segments := [wSegment], rawText := ""
    folderName := "short-takes" }

/-- Episode with a 100+-character segment. -/
def wLongEpisode : Episode :=
  { guest := "Claire Long", title := "Long Form", youtubeUrl := "", videoId := ""
    description := "", durationSeconds := 0, duration := "", viewCount := 2
    channel := "Lennys Podcast", segments := [wLongSegment], rawText := ""
    folderName := "long-form" }

/-- Two-episode index for the random-segment claims; its engine returns
no hits. -/
def wRandomIndex : SearchIndex :=
  { episodes := [("short-takes", wShortEpisode), ("long-form", wLongEpisode)]
    guestToFolder := [("shorty", "short-takes"), ("claire long", "long-form")]
    lunrSearch := fun _ => .ok [] }

/-- Claim C9 counterexample: drawing the first episode — which has no
segment of 100 or more characters — returns `none` even though the
second episode holds a candidate, so episodes without a candidate are
not skipped and a corpus-wide candidate does not force a non-null
result. -/
theorem getRandomSegment_no_skip_counterexample :
    0 < (wRandomIndex.episodes.map Prod.snd).length ∧
    (∃ p ∈ wRandomIndex.episodes, ∃ s ∈ p.2.segments, 100 ≤ s.text.length) ∧
    getRandomSegment wRandomIndex none 0 0 = none := by
  refine ⟨by decide, by decide, rfl⟩

/-- Claim C9 (amended): with no topic, `getRandomSegment` picks the
drawn episode and then a drawn segment among that episode's segments of
100+ characters; it returns `none` when the drawn episode has no such
segment — the draw does not skip to another episode, so a candidate
elsewhere in the corpus does not prevent a null result. -/
theorem getRandomSegment_draw (index : SearchIndex) (epDraw segDraw : Nat) (ep : Episode)
    (he : (index.episodes.map Prod.snd).get? epDraw = some ep) :
    ((ep.segments.filter (fun s => 100 ≤ s.text.length)) = [] →
      getRandomSegment index none epDraw segDraw = none) ∧
    (∀ s, (ep.segments.filter (fun s => 100 ≤ s.text.length)).get? segDraw = some s →
      getRandomSegment index none epDraw segDraw =
        some { segment := s, episode := ep, score := 1, matchedTerms := [] }) := by
  have hlen : ¬ (index.episodes.map Prod.snd).length = 0 := by
    intro h0
    rw [List.length_eq_zero] at h0
    rw [h0] at he
    cases he
  constructor
  · intro hempty
    simp only [getRandomSegment]
    rw [if_neg hlen, he]
    dsimp only
    rw [hempty]
    rfl
  · intro s hs
    have hgl : ¬ (ep.segments.filter (fun s => 100 ≤ s.text.length)).length = 0 := by
      intro h0
      rw [List.length_eq_zero] at h0
      rw [h0] at hs
      cases hs
    simp only [getRandomSegment]
    rw [if_neg hlen, he]
    dsimp only
    rw [if_neg hgl, hs]

/-- Witness for the amended C9: drawing the second episode and its first
long segment returns that segment; drawing the first episode returns
`none`. -/
theorem getRandomSegment_draw_witness :
    ((wRandomIndex.episodes.map Prod.snd).get? 1 = some wLongEpisode ∧
      getRandomSegment wRandomIndex none 1 0 =
        some { segment := wLongSegment, episode := wLongEpisode, score := 1, matchedTerms := [] }) ∧
    ((wRandomIndex.episodes.map Prod.snd).get? 0 = some wShortEpisode ∧
      getRandomSegment wRandomIndex none 0 0 = none) := by
  constructor
  · exact ⟨rfl, (getRandomSegment_draw wRandomIndex 1 0 wLongEpisode rfl).2 wLongSegment (by decide)⟩
  · exact ⟨rfl, (getRandomSegment_draw wRandomIndex 0 0 wShortEpisode rfl).1 (by decide)⟩

/-- A phase-2 search result over the witness corpus (the `design` hit). -/
def wResultDesign : SearchResult :=
  { segment := wSegment, episode := wEpisode, score := 2, matchedTerms := ["design"] }

/-- The same segment found with a higher score under the `craft` term. -/
def wResultCraft : SearchResult :=
  { segment := wSegment, episode := wEpisode, score := 3, matchedTerms := ["craft"] }

/-- A one-session cache whose key is the session key of query `q` with
no expansion terms. -/
def wCacheOne : SessionCache := [(getSessionKey "q" [], [wResultDesign])]

/-- Claim C7 counterexample: a phase-3 call whose session key is found
but whose bounds-filtered selection is empty returns early without
deleting the session entry — the key is still retrievable afterwards. -/
theorem handleCompletePhase_retains_session_counterexample :
    mapGet wCacheOne (getSessionKey "q" []) = some [wResultDesign] ∧
    mapGet (handleCompletePhase wIndex "q" [] [] 5 wCacheOne).2 (getSessionKey "q" []) =
      some [wResultDesign] := by
  exact ⟨rfl, rfl⟩

/-- Claim C7 (amended): a phase-3 call with a found session deletes that
session entry exactly when the bounds-filtered selection is non-empty
(and then the key stops being retrievable, while every other key's entry
is untouched); when the selection filters to empty, the whole cache —
including the found entry — is left unchanged. -/
theorem handleCompletePhase_cache_effect (index : SearchIndex) (q : String)
    (terms : List String) (sel : List Int) (limit : Nat) (cache : SessionCache)
    (cands : List SearchResult)
    (hfound : mapGet cache (getSessionKey q terms) = some cands) :
    (selectedCandidates cands sel limit = [] →
      (handleCompletePhase index q terms sel limit cache).2 = cache) ∧
    (selectedCandidates cands sel limit ≠ [] →
      (handleCompletePhase index q terms sel limit cache).2 =
        mapDelete cache (getSessionKey q terms) ∧
      ((cache.map Prod.fst).Nodup →
        mapGet (handleCompletePhase index q terms sel limit cache).2
          (getSessionKey q terms) = none) ∧
      (∀ k, k ≠ getSessionKey q terms →
        mapGet (handleCompletePhase index q terms sel limit cache).2 k = mapGet cache k)) := by
  constructor
  · intro hempty
    simp [handleCompletePhase, hfound, hempty]
  · intro hne
    have hlen : ¬ (selectedCandidates cands sel limit).length = 0 := by
      intro h0
      exact hne (List.length_eq_zero.mp h0)
    have hcache2 : (handleCompletePhase index q terms sel limit cache).2 =
        mapDelete cache (getSessionKey q terms) := by
      simp [handleCompletePhase, hfound, hlen]
    refine ⟨hcache2, ?_, ?_⟩
    · intro hnd
      rw [hcache2]
      exact mapGet_mapDelete_self cache (getSessionKey q terms) hnd
    · intro k hk
      rw [hcache2]
      exact mapGet_mapDelete_ne cache (getSessionKey q terms) k hk

/-- A two-session cache: the `q` session plus an unrelated one. -/
def wCacheTwo : SessionCache :=
  [(getSessionKey "q" [], [wResultDesign]), ("other::", [wResultCraft])]

/-- Witness for the amended C7: over a two-entry cache, a phase-3 call
with one valid index deletes exactly the consumed session and keeps the
other. -/
theorem handleCompletePhase_cache_effect_witness :
    mapGet wCacheTwo (getSessionKey "q" []) = some [wResultDesign] ∧
    selectedCandidates [wResultDesign] [0] 5 ≠ [] ∧
    mapGet (handleCompletePhase wIndex "q" [] [0] 5 wCacheTwo).2 (getSessionKey "q" []) = none ∧
    mapGet (handleCompletePhase wIndex "q" [] [0] 5 wCacheTwo).2 "other::" =
      some [wResultCraft] := by
  have h := (handleCompletePhase_cache_effect wIndex "q" [] [0] 5 wCacheTwo
    [wResultDesign] rfl).2 (by decide)
  refine ⟨rfl, by decide, h.2.1 (by decide), ?_⟩
  rw [h.2.2 "other::" (by decide)]
  rfl

/-! Parser lemmas for the no-header claim. -/

/-- The trimmed content lines of a line list: non-blank, not a markdown
heading (`#`), and matching neither header pattern is assumed by the
lemmas that use this. -/
def contentLines (lines : List String) : List String :=
  lines.filterMap (fun l =>
    if jsTrim l = "" then none
    else if jsStartsWith (jsTrim l) "#" then none
    else some (jsTrim l))

theorem parseLine_of_no_header (st : ParseState) (line : String)
    (h1 : matchSpeakerTimestamp (jsTrim line) = none)
    (h2 : matchTimestampOnly (jsTrim line) = none) :
    parseLine st line =
      if jsTrim line = "" then st
      else if jsStartsWith (jsTrim line) "#" then st
      else { st with currentText := st.currentText ++ [jsTrim line] } := by
  simp only [parseLine, h1, h2]

theorem foldl_parseLine_no_headers (lines : List String) :
    ∀ st : ParseState,
      (∀ l ∈ lines, matchSpeakerTimestamp (jsTrim l) = none ∧
        matchTimestampOnly (jsTrim l) = none) →
      (lines.foldl parseLine st).currentSpeaker = st.currentSpeaker ∧
      (lines.foldl parseLine st).currentTimestamp = st.currentTimestamp ∧
      (lines.foldl parseLine st).currentTimestampSeconds = st.currentTimestampSeconds ∧
      (lines.foldl parseLine st).segments = st.segments ∧
      (lines.foldl parseLine st).currentText = st.currentText ++ contentLines lines := by
  induction lines with
  | nil =>
    intro st _
    simp [contentLines]
  | cons l rest ih =>
    intro st h
    have hl := h l (by simp)
    have hstep := parseLine_of_no_header st l hl.1 hl.2
    have hrest : ∀ x ∈ rest, matchSpeakerTimestamp (jsTrim x) = none ∧
        matchTimestampOnly (jsTrim x) = none := fun x hx => h x (by simp [hx])
    rw [List.foldl_cons, hstep]
    by_cases hb : jsTrim l = ""
    · have := ih st hrest
      simp only [if_pos hb]
      simpa [contentLines, hb] using this
    · by_cases hh : jsStartsWith (jsTrim l) "#" = true
      · have := ih st hrest
        simp only [if_neg hb, if_pos hh]
        simpa [contentLines, hb, hh] using this
      · have := ih { st with currentText := st.currentText ++ [jsTrim l] } hrest
        simp only [if_neg hb, if_neg hh]
        simpa [contentLines, hb, hh, List.append_assoc] using this

/-- Claim C8 counterexample: the empty body has no line matching either
header pattern, yet `parseTranscriptBody` returns zero segments, not
one. -/
theorem parseTranscriptBody_empty_counterexample :
    (∀ l ∈ splitOnChar '\n' "", matchSpeakerTimestamp (jsTrim l) = none ∧
      matchTimestampOnly (jsTrim l) = none) ∧
    parseTranscriptBody "" = [] := by
  exact ⟨by decide, rfl⟩

/-- Claim C8 (amended): a transcript body in which no line matches
either header pattern, and which has at least one non-blank line that is
not a markdown heading, parses to exactly one segment with speaker
`Unknown` and timestamp `00:00:00`; with no such content line (for
example the empty body) the parse is empty instead. -/
theorem parseTranscriptBody_no_headers (body : String)
    (hnone : ∀ l ∈ splitOnChar '\n' body, matchSpeakerTimestamp (jsTrim l) = none ∧
      matchTimestampOnly (jsTrim l) = none)
    (hcontent : ∃ l ∈ splitOnChar '\n' body, jsTrim l ≠ "" ∧
      jsStartsWith (jsTrim l) "#" = false) :
    ∃ text, parseTranscriptBody body =
      [{ speaker := "Unknown", timestamp := "00:00:00", timestampSeconds := 0, text := text }] := by
  have hfold := foldl_parseLine_no_headers (splitOnChar '\n' body)
    { currentSpeaker := "Unknown", currentTimestamp := "00:00:00"
      currentTimestampSeconds := 0, currentText := [], segments := [] } hnone
  have hne : contentLines (splitOnChar '\n' body) ≠ [] := by
    obtain ⟨l, hl, hb, hh⟩ := hcontent
    intro hempty
    have : jsTrim l ∈ contentLines (splitOnChar '\n' body) := by
      apply List.mem_filterMap.mpr
      exact ⟨l, hl, by rw [if_neg hb, hh]; simp⟩
    rw [hempty] at this
    cases this
  refine ⟨(flushedSegment ((splitOnChar '\n' body).foldl parseLine
    { currentSpeaker := "Unknown", currentTimestamp := "00:00:00"
      currentTimestampSeconds := 0, currentText := [], segments := [] })).text, ?_⟩
  unfold parseTranscriptBody
  rw [if_pos (by rw [hfold.2.2.2.2]; simpa using hne)]
  rw [hfold.2.2.2.1]
  simp only [List.nil_append]
  unfold flushedSegment
  rw [hfold.1, hfold.2.1, hfold.2.2.1]

/-- Witness for the amended C8: a two-line body with no header lines
parses to the single `Unknown` segment. -/
theorem parseTranscriptBody_no_headers_witness :
    (∀ l ∈ splitOnChar '\n' "hello\nworld", matchSpeakerTimestamp (jsTrim l) = none ∧
      matchTimestampOnly (jsTrim l) = none) ∧
    (∃ l ∈ splitOnChar '\n' "hello\nworld", jsTrim l ≠ "" ∧
      jsStartsWith (jsTrim l) "#" = false) ∧
    ∃ text, parseTranscriptBody "hello\nworld" =
      [{ speaker := "Unknown", timestamp := "00:00:00", timestampSeconds := 0, text := text }] := by
  exact ⟨by decide, by decide,
    parseTranscriptBody_no_headers "hello\nworld" (by decide) (by decide)⟩

/-! Phase-2 merge lemmas. -/

/-- Specification-side running best for one merge key: a challenger
replaces the current best only when its score is strictly greater. -/
def runBest (best : Option SearchResult) : List SearchResult → Option SearchResult
  | [] => best
  | r :: rest =>
    runBest
      (match best with
       | none => some r
       | some b => if b.score < r.score then some r else some b) rest

theorem runBest_cons_none (r : SearchResult) (l : List SearchResult) :
    runBest none (r :: l) = runBest (some r) l := rfl

theorem runBest_cons_some (b r : SearchResult) (l : List SearchResult) :
    runBest (some b) (r :: l) =
      runBest (if b.score < r.score then some r else some b) l := rfl

theorem mergeResults_mapGet (l : List SearchResult) :
    ∀ (m : List (String × SearchResult)) (key : String),
      mapGet (mergeResults l m) key =
        runBest (mapGet m key) (l.filter (fun r => resultKey r = key)) := by
  induction l with
  | nil =>
    intro m key
    simp [mergeResults, runBest]
  | cons r rest ih =>
    intro m key
    simp only [mergeResults]
    by_cases hk : resultKey r = key
    · rw [List.filter_cons_of_pos (by simpa using hk)]
      subst hk
      cases hget : mapGet m (resultKey r) with
      | none =>
        show mapGet (mergeResults rest (mapSet m (resultKey r) r)) (resultKey r) =
          runBest none (r :: List.filter (fun x => decide (resultKey x = resultKey r)) rest)
        rw [runBest_cons_none, ih, mapGet_mapSet_self]
      | some existing =>
        show mapGet (mergeResults rest
            (if existing.score < r.score then mapSet m (resultKey r) r else m)) (resultKey r) =
          runBest (some existing)
            (r :: List.filter (fun x => decide (resultKey x = resultKey r)) rest)
        rw [runBest_cons_some]
        by_cases hs : existing.score < r.score
        · rw [if_pos hs, if_pos hs, ih, mapGet_mapSet_self]
        · rw [if_neg hs, if_neg hs, ih, hget]
    · rw [List.filter_cons_of_neg (by simpa using hk)]
      have hget1 : mapGet
          (match mapGet m (resultKey r) with
           | none => mapSet m (resultKey r) r
           | some existing =>
             if existing.score < r.score then mapSet m (resultKey r) r else m) key =
          mapGet m key := by
        cases hget : mapGet m (resultKey r) with
        | none =>
          dsimp only
          exact mapGet_mapSet_ne m (resultKey r) key r (fun h => hk h.symm)
        | some existing =>
          dsimp only
          by_cases hs : existing.score < r.score
          · rw [if_pos hs]
            exact mapGet_mapSet_ne m (resultKey r) key r (fun h => hk h.symm)
          · rw [if_neg hs]
      rw [ih, hget1]

theorem runBest_le (l : List SearchResult) :
    ∀ (best : Option SearchResult) (r : SearchResult), runBest best l = some r →
      (∀ x ∈ l, x.score ≤ r.score) ∧ (∀ b, best = some b → b.score ≤ r.score) := by
  induction l with
  | nil =>
    intro best r h
    simp only [runBest] at h
    refine ⟨by simp, ?_⟩
    intro b hb
    rw [hb] at h
    cases h
    exact le_refl _
  | cons x rest ih =>
    intro best r h
    simp only [runBest] at h
    cases best with
    | none =>
      dsimp only at h
      have := ih (some x) r h
      refine ⟨?_, by simp⟩
      intro y hy
      rcases List.mem_cons.mp hy with hy | hy
      · exact hy ▸ this.2 x rfl
      · exact this.1 y hy
    | some b =>
      dsimp only at h
      by_cases hs : b.score < x.score
      · rw [if_pos hs] at h
        have := ih (some x) r h
        have hx := this.2 x rfl
        refine ⟨?_, ?_⟩
        · intro y hy
          rcases List.mem_cons.mp hy with hy | hy
          · exact hy ▸ hx
          · exact this.1 y hy
        · intro b2 hb2
          cases hb2
          exact le_trans (le_of_lt hs) hx
      · rw [if_neg hs] at h
        have := ih (some b) r h
        have hb := this.2 b rfl
        refine ⟨?_, ?_⟩
        · intro y hy
          rcases List.mem_cons.mp hy with hy | hy
          · exact hy ▸ le_trans (not_lt.mp hs) hb
          · exact this.1 y hy
        · intro b2 hb2
          cases hb2
          exact hb

theorem runBest_first (l : List SearchResult) :
    ∀ (best : Option SearchResult) (r : SearchResult), runBest best l = some r →
      best = some r ∨
      ∃ i, l.get? i = some r ∧ (∀ b, best = some b → b.score < r.score) ∧
        (∀ x ∈ l.take i, x.score < r.score) := by
  induction l with
  | nil =>
    intro best r h
    simp only [runBest] at h
    exact Or.inl h
  | cons x rest ih =>
    intro best r h
    simp only [runBest] at h
    cases best with
    | none =>
      dsimp only at h
      rcases ih (some x) r h with hl | ⟨i, hi, hbest, htake⟩
      · cases hl
        exact Or.inr ⟨0, rfl, by simp, by simp⟩
      · refine Or.inr ⟨i + 1, by simpa using hi, by simp, ?_⟩
        intro y hy
        rcases List.mem_cons.mp (by simpa using hy) with hy | hy
        · exact hy ▸ hbest x rfl
        · exact htake y hy
    | some b =>
      dsimp only at h
      by_cases hs : b.score < x.score
      · rw [if_pos hs] at h
        rcases ih (some x) r h with hl | ⟨i, hi, hbest, htake⟩
        · cases hl
          refine Or.inr ⟨0, rfl, ?_, by simp⟩
          intro b2 hb2
          cases hb2
          exact hs
        · refine Or.inr ⟨i + 1, by simpa using hi, ?_, ?_⟩
          · intro b2 hb2
            cases hb2
            exact lt_trans hs (hbest x rfl)
          · intro y hy
            rcases List.mem_cons.mp (by simpa using hy) with hy | hy
            · exact hy ▸ hbest x rfl
            · exact htake y hy
      · rw [if_neg hs] at h
        rcases ih (some b) r h with hl | ⟨i, hi, hbest, htake⟩
        · exact Or.inl hl
        · refine Or.inr ⟨i + 1, by simpa using hi, ?_, ?_⟩
          · intro b2 hb2
            cases hb2
            exact hbest b rfl
          · intro y hy
            rcases List.mem_cons.mp (by simpa using hy) with hy | hy
            · exact hy ▸ lt_of_le_of_lt (not_lt.mp hs) (hbest b rfl)
            · exact htake y hy

/-- Claim C4: in the phase-2 merge over all per-term hits (original
query first, then every expanded term, in search order), the candidate
retained under a key is the first hit with that key achieving the
maximum score: every hit with the key scores at most the retained
score, and every hit with the key inserted before the retained one
scores strictly less (an equal-scoring challenger is discarded). -/
theorem phase2_merge_keeps_first_max (index : SearchIndex) (q : String)
    (terms : List String) (guest : Option String) (ms : ℚ) (key : String) (r : SearchResult)
    (h : mapGet (mergeResults (phase2AllHits index q terms guest ms) []) key = some r) :
    ∃ i,
      ((phase2AllHits index q terms guest ms).filter
        (fun x => resultKey x = key)).get? i = some r ∧
      (∀ x ∈ (phase2AllHits index q terms guest ms).filter (fun x => resultKey x = key),
        x.score ≤ r.score) ∧
      (∀ x ∈ ((phase2AllHits index q terms guest ms).filter
        (fun x => resultKey x = key)).take i, x.score < r.score) := by
  rw [mergeResults_mapGet (phase2AllHits index q terms guest ms) [] key] at h
  have hle := runBest_le _ _ _ h
  rcases runBest_first _ _ _ h with hl | ⟨i, hi, _, htake⟩
  · cases hl
  · exact ⟨i, hi, hle.1, htake⟩

/-- Witness for C4: over the witness corpus the terms `design` and
`craft` hit the same `(folderName, timestamp)` key with scores 2 and 3;
the merge retains the craft hit of score 3 and the theorem locates it as
the first maximal occurrence. -/
theorem phase2_merge_keeps_first_max_witness :
    mapGet (mergeResults (phase2AllHits wIndex "design" ["craft"] none 1) [])
      "brian-chesky:00:00:05" = some wResultCraft ∧
    ∃ i,
      ((phase2AllHits wIndex "design" ["craft"] none 1).filter
        (fun x => resultKey x = "brian-chesky:00:00:05")).get? i = some wResultCraft ∧
      (∀ x ∈ (phase2AllHits wIndex "design" ["craft"] none 1).filter
        (fun x => resultKey x = "brian-chesky:00:00:05"), x.score ≤ wResultCraft.score) ∧
      (∀ x ∈ ((phase2AllHits wIndex "design" ["craft"] none 1).filter
        (fun x => resultKey x = "brian-chesky:00:00:05")).take i,
        x.score < wResultCraft.score) := by
  exact ⟨by decide, phase2_merge_keeps_first_max wIndex "design" ["craft"] none 1
    "brian-chesky:00:00:05" wResultCraft (by decide)⟩

/-- Claim C5: with 10 distinct sessions cached (none of them the new
key) and a non-empty phase-2 candidate list, the phase-2 call stores the
11th session and evicts exactly the oldest entry: afterwards the cache
again holds 10 sessions, the oldest key is no longer retrievable, the
other nine entries are untouched, and the new key maps to the stored
candidates. -/
theorem handleFilterPhase_evicts_oldest (index : SearchIndex) (q : String)
    (terms : List String) (guest : Option String) (ms : Option ℚ)
    (k0 : String) (v0 : List SearchResult) (rest : SessionCache)
    (hlen : rest.length = 9)
    (hnd : (((k0, v0) :: rest).map Prod.fst).Nodup)
    (hfresh : ∀ p ∈ (k0, v0) :: rest, p.1 ≠ getSessionKey q terms)
    (hres : phase2Candidates index q terms guest (ms.getD (mkRat 1 20)) ≠ []) :
    (handleFilterPhase index q terms guest ms ((k0, v0) :: rest)).2.length = 10 ∧
    mapGet (handleFilterPhase index q terms guest ms ((k0, v0) :: rest)).2 k0 = none ∧
    (∀ p ∈ rest,
      mapGet (handleFilterPhase index q terms guest ms ((k0, v0) :: rest)).2 p.1 = some p.2) ∧
    mapGet (handleFilterPhase index q terms guest ms ((k0, v0) :: rest)).2
      (getSessionKey q terms) =
      some (phase2Candidates index q terms guest (ms.getD (mkRat 1 20))) := by
  have hlen0 : ¬ (phase2Candidates index q terms guest (ms.getD (mkRat 1 20))).length = 0 :=
    fun h0 => hres (List.length_eq_zero.mp h0)
  rw [List.map_cons] at hnd
  have hnd' := List.nodup_cons.mp hnd
  have hcache : (handleFilterPhase index q terms guest ms ((k0, v0) :: rest)).2 =
      rest ++ [(getSessionKey q terms,
        phase2Candidates index q terms guest (ms.getD (mkRat 1 20)))] := by
    simp only [handleFilterPhase]
    rw [if_neg hlen0]
    dsimp only
    simp only [cacheStore]
    rw [mapSet_eq_append _ _ _ hfresh]
    have hlen11 : (((k0, v0) :: rest) ++
        [(getSessionKey q terms,
          phase2Candidates index q terms guest (ms.getD (mkRat 1 20)))]).length = 11 := by
      simp [hlen]
    rw [hlen11]
    rw [if_pos (by norm_num)]
    simp
  have hk0fresh : k0 ≠ getSessionKey q terms := hfresh (k0, v0) (by simp)
  refine ⟨?_, ?_, ?_, ?_⟩
  · rw [hcache]
    simp [hlen]
  · rw [hcache, mapGet_append]
    have : mapGet rest k0 = none := by
      apply mapGet_eq_none
      intro p hp hpk
      exact hnd'.1 (by rw [← hpk]; exact List.mem_map.mpr ⟨p, hp, rfl⟩)
    rw [this]
    simp [mapGet, Ne.symm hk0fresh]
  · intro p hp
    rw [hcache, mapGet_append]
    rw [mapGet_of_mem rest p.1 p.2 (by simpa using hp) hnd'.2]
  · rw [hcache, mapGet_append]
    have : mapGet rest (getSessionKey q terms) = none := by
      apply mapGet_eq_none
      intro p hp
      exact hfresh p (by simp [hp])
    rw [this]
    simp [mapGet]

/-- Nine further sessions for the eviction witness. -/
def wCacheRest : SessionCache :=
  [("s1::", []), ("s2::", []), ("s3::", []), ("s4::", []), ("s5::", []),
   ("s6::", []), ("s7::", []), ("s8::", []), ("s9::", [])]

/-- Witness for C5: a full 10-session cache, a phase-2 call for
`design` (with one expanded term) whose candidate list is non-empty;
afterwards the oldest key `s0::` is gone, session `s5::` is still
there, and the new key holds the candidates. -/
theorem handleFilterPhase_evicts_oldest_witness :
    wCacheRest.length = 9 ∧
    phase2Candidates wIndex "design" ["craft"] none ((some (1 : ℚ)).getD (mkRat 1 20)) ≠ [] ∧
    (handleFilterPhase wIndex "design" ["craft"] none (some 1)
      (("s0::", []) :: wCacheRest)).2.length = 10 ∧
    mapGet (handleFilterPhase wIndex "design" ["craft"] none (some 1)
      (("s0::", []) :: wCacheRest)).2 "s0::" = none ∧
    mapGet (handleFilterPhase wIndex "design" ["craft"] none (some 1)
      (("s0::", []) :: wCacheRest)).2 "s5::" = some [] ∧
    mapGet (handleFilterPhase wIndex "design" ["craft"] none (some 1)
      (("s0::", []) :: wCacheRest)).2 (getSessionKey "design" ["craft"]) =
      some (phase2Candidates wIndex "design" ["craft"] none 1) := by
  have h := handleFilterPhase_evicts_oldest wIndex "design" ["craft"] none (some 1)
    "s0::" [] wCacheRest (by decide) (by decide) (by decide) (by decide)
  exact ⟨by decide, by decide, h.1, h.2.1, h.2.2.1 ("s5::", []) (by decide), h.2.2.2⟩

/-- Claim C6: in a phase-3 call with a found session, out-of-range
selected indices are silently dropped by the bounds filter; provided at
least one selected index is in range, the response is a `complete`
answer whose `resultCount` equals the number of in-range indices (capped
at the request limit), and the j-th produced quote comes from exactly
the candidate addressed by the j-th surviving index. -/
theorem handleCompletePhase_bounds_filter (index : SearchIndex) (q : String)
    (terms : List String) (sel : List Int) (limit : Nat) (cache : SessionCache)
    (cands : List SearchResult)
    (hfound : mapGet cache (getSessionKey q terms) = some cands)
    (hpos : selectedCandidates cands sel limit ≠ []) :
    (handleCompletePhase index q terms sel limit cache).1.phase = .complete ∧
    (handleCompletePhase index q terms sel limit cache).1.resultCount =
      some ((sel.filter (fun i => decide (0 ≤ i) &&
        decide (i < (cands.length : Int)))).take limit).length ∧
    (∀ j r, (selectedCandidates cands sel limit).get? j = some r →
      ∃ i, ((sel.filter (fun i => decide (0 ≤ i) &&
          decide (i < (cands.length : Int)))).take limit).get? j = some i ∧
        listGetInt cands (some i) = some r) := by
  have hlen : ¬ (selectedCandidates cands sel limit).length = 0 :=
    fun h0 => hpos (List.length_eq_zero.mp h0)
  refine ⟨?_, ?_, ?_⟩
  · simp [handleCompletePhase, hfound, hlen]
  · simp only [handleCompletePhase]
    split
    next heq =>
      rw [hfound] at heq
      cases heq
    next candidates heq =>
      rw [hfound] at heq
      injection heq with heq
      subst heq
      rw [if_neg hlen]
      dsimp only
      rw [List.length_map]
      simp only [selectedCandidates, List.length_map]
  · intro j r hj
    simp only [selectedCandidates] at hj
    rw [List.get?_map] at hj
    cases hv : ((sel.filter (fun i => decide (0 ≤ i) &&
        decide (i < (cands.length : Int)))).take limit).get? j with
    | none =>
      rw [hv] at hj
      cases hj
    | some i =>
      rw [hv] at hj
      have hmem : i ∈ (sel.filter (fun i => decide (0 ≤ i) &&
          decide (i < (cands.length : Int)))) :=
        List.take_subset _ _ (List.mem_iff_get?.mpr ⟨j, hv⟩)
      have hpred := (List.mem_filter.mp hmem).2
      rw [Bool.and_eq_true, decide_eq_true_iff, decide_eq_true_iff] at hpred
      have hlt : i.toNat < cands.length := by omega
      have hgi : listGetInt cands (some i) = cands.get? i.toNat := by
        simp only [listGetInt]
        rw [if_neg (not_lt.mpr hpred.1)]
      have hsome : cands.get? i.toNat = some (cands.get ⟨i.toNat, hlt⟩) :=
        List.get?_eq_get hlt
      refine ⟨i, rfl, ?_⟩
      have hj2 : (listGetInt cands (some i)).getD dummySearchResult = r := by
        simpa using hj
      rw [hgi, hsome] at hj2
      simp only [Option.getD_some] at hj2
      rw [hgi, hsome, hj2]

/-- Five cached candidates for the bounds-filter witness. -/
def wFiveCands : List SearchResult :=
  [wResultDesign, wResultDesign, wResultCraft, wResultDesign, wResultDesign]

/-- Session cache for the bounds-filter witness. -/
def wCacheFive : SessionCache := [(getSessionKey "q" [], wFiveCands)]

/-- Witness for C6: with 5 cached candidates, the selection `[99, 2]`
(one out-of-range index, one valid) yields exactly one quote — the one
for candidate 2. -/
theorem handleCompletePhase_bounds_filter_witness :
    mapGet wCacheFive (getSessionKey "q" []) = some wFiveCands ∧
    selectedCandidates wFiveCands [99, 2] 5 ≠ [] ∧
    (handleCompletePhase wIndex "q" [] [99, 2] 5 wCacheFive).1.resultCount = some 1 ∧
    (∀ j r, (selectedCandidates wFiveCands [99, 2] 5).get? j = some r →
      ∃ i, (([99, 2].filter (fun i => decide (0 ≤ i) &&
          decide (i < ((wFiveCands.length : Nat) : Int)))).take 5).get? j = some i ∧
        listGetInt wFiveCands (some i) = some r) := by
  have h := handleCompletePhase_bounds_filter wIndex "q" [] [99, 2] 5 wCacheFive
    wFiveCands rfl (by decide)
  refine ⟨rfl, by decide, ?_, h.2.2⟩
  rw [h.2.1]
  decide

end AskLenny
